import Mathlib

/-!
Verification of the pdf-to-quiz repository: a shallow embedding of the
client-side quiz state machine (`components/quiz.tsx`, the variant taking
`onNeedMoreQuestions`), the zod schema contract (`lib/schemas.ts`), and the
validation step of the generation endpoint (`POST`), together with proofs of
the specification's testable properties.
-/

namespace PdfToQuiz

/-- A quiz question, embedding the TypeScript type `Question = z.infer[questionSchema]`
from `lib/schemas.ts`: `question: string`, `options: string[]` (the schema
constrains the length to 4 at parse time), `answer: "A"|"B"|"C"|"D"` (the schema
constrains the value at parse time), `explanation: string`. -/
structure Question where
  question : String
  options : List String
  answer : String
  explanation : String
deriving DecidableEq

/-- A JSON value, the input domain of the zod parsers. Numbers are modelled as
integers; no schema in this repository parses numbers, so the approximation is
irrelevant to validation. -/
inductive Json where
  | null
  | bool (b : Bool)
  | num (n : Int)
  | str (s : String)
  | arr (items : List Json)
  | obj (fields : List (String × Json))

/-- Field lookup in a JSON object, as zod's object parser reads a property. -/
def lookupField (fields : List (String × Json)) (k : String) : Option Json :=
  (fields.find? (fun p => p.1 = k)).map (fun p => p.2)

/-- `z.string()`: succeeds exactly on JSON strings. -/
def parseString : Json → Option String
  | .str s => some s
  | _ => none

/-- `z.enum(["A", "B", "C", "D"])` from `lib/schemas.ts`: a string that is one
of the four labels. -/
def parseAnswerLabel : Json → Option String
  | .str s => if s = "A" ∨ s = "B" ∨ s = "C" ∨ s = "D" then some s else none
  | _ => none

/-- Element-wise string parsing of a JSON list, as `z.array(z.string())`
parses the elements of an array. -/
def parseStringList : List Json → Option (List String)
  | [] => some []
  | j :: rest => do
      let s ← parseString j
      let ss ← parseStringList rest
      some (s :: ss)

/-- `z.array(z.string()).length(4)`, the `options` field of `questionSchema`:
a JSON array whose elements are all strings and whose length is exactly 4. -/
def parseOptions : Json → Option (List String)
  | .arr items => do
      let ss ← parseStringList items
      if ss.length = 4 then some ss else none
  | _ => none

/-- `questionSchema.parse` from `lib/schemas.ts`: an object with fields
`question : string`, `options : string[4]`, `answer : enum A-D`,
`explanation : string`. zod strips unknown keys; a missing or ill-typed
field fails the whole object. -/
def questionSchemaParse (j : Json) : Option Question :=
  match j with
  | .obj fields => do
      let q ← (lookupField fields "question").bind parseString
      let opts ← (lookupField fields "options").bind parseOptions
      let ans ← (lookupField fields "answer").bind parseAnswerLabel
      let expl ← (lookupField fields "explanation").bind parseString
      some { question := q, options := opts, answer := ans, explanation := expl }
  | _ => none

/-- Element-wise question parsing of a JSON list, as `z.array(questionSchema)`
parses the elements of an array. -/
def parseQuestionList : List Json → Option (List Question)
  | [] => some []
  | j :: rest => do
      let q ← questionSchemaParse j
      let qs ← parseQuestionList rest
      some (q :: qs)

/-- `questionsSchema.parse` from `lib/schemas.ts`:
`z.array(questionSchema).length(4)`. -/
def questionsSchemaParse (j : Json) : Option (List Question) :=
  match j with
  | .arr items => do
      let qs ← parseQuestionList items
      if qs.length = 4 then some qs else none
  | _ => none

/-- The `onFinish` validation step of `POST` in the generation endpoint: the
assembled object is checked with `questionsSchema.safeParse`; on a parse error
an `Error` is thrown (the call fails), otherwise the call completes with the
validated batch. The thrown error's message concatenates zod issue messages;
it is modelled as an opaque string. -/
def onFinishValidate (object : Json) : Except String (List Question) :=
  match questionsSchemaParse object with
  | some qs => .ok qs
  | none => .error "validation error"

/-- The quiz session state: the `useState` cells of the `Quiz` component in
`components/quiz.tsx`, plus the constant `initialQuestions` prop. The
`progress` cell is omitted: it is a cosmetic floating-point percentage
recomputed on a timer and no claim mentions it. An `answers` entry is
`none` for a JS array hole (an index never assigned). -/
structure QuizState where
  initialQuestions : List Question
  questions : List Question
  currentQuestionIndex : Nat
  answers : List (Option String)
  score : Nat
  hasAnswered : Bool
  isComplete : Bool
  feedbackMessage : String
  isLoadingMore : Bool
  showExplanation : Bool
deriving DecidableEq

/-- JS array index assignment `newAnswers[i] = answer`: overwrites in range,
otherwise pads with holes up to index `i` and extends the array. -/
def setAt (as : List (Option String)) (i : Nat) (v : String) : List (Option String) :=
  if i < as.length then as.set i (some v)
  else as ++ List.replicate (i - as.length) none ++ [some v]

/-- `questions[currentQuestionIndex].answer` as an optional lookup. In JS an
out-of-range index makes the field access throw; the step relation below only
invokes the handlers with the index in range, where the lookup is `some`. -/
def currentAnswerKey (s : QuizState) : Option String :=
  (s.questions[s.currentQuestionIndex]?).map Question.answer

/-- `handleSelectAnswer` from `components/quiz.tsx`: guarded by `!hasAnswered`;
records the label at the current index, marks the question answered, bumps the
score and sets the feedback message when the label matches the question's
`answer`. -/
def handleSelectAnswer (answer : String) (s : QuizState) : QuizState :=
  if s.hasAnswered then s
  else
    { s with
      answers := setAt s.answers s.currentQuestionIndex answer
      hasAnswered := true
      score := if currentAnswerKey s = some answer then s.score + 1 else s.score
      feedbackMessage :=
        if currentAnswerKey s = some answer then "Correct! 🎉"
        else "Incorrect. The correct answer was " ++ (currentAnswerKey s).getD "undefined" }

/-- `handleNextQuestion` from `components/quiz.tsx`: unconditionally increments
the index and clears the answered flag, the feedback message and the
explanation panel. -/
def handleNextQuestion (s : QuizState) : QuizState :=
  { s with
    currentQuestionIndex := s.currentQuestionIndex + 1
    hasAnswered := false
    feedbackMessage := ""
    showExplanation := false }

/-- `handleShowResults` from `components/quiz.tsx`: sets the completion flag. -/
def handleShowResults (s : QuizState) : QuizState :=
  { s with isComplete := true }

/-- `handleReset` from `components/quiz.tsx`: clears answers, index, score,
flags and the explanation panel, and restores `questions` to the
`initialQuestions` prop. (It does not clear `feedbackMessage`.) -/
def handleReset (s : QuizState) : QuizState :=
  { s with
    answers := []
    currentQuestionIndex := 0
    score := 0
    hasAnswered := false
    isComplete := false
    questions := s.initialQuestions
    showExplanation := false }

/-- The trigger condition of `loadMoreIfNeeded` in `components/quiz.tsx`:
`currentQuestionIndex >= questions.length - 2 && !isLoadingMore && !isComplete`,
with the subtraction over JS numbers (hence over `Int` here). -/
def loadMoreGuard (s : QuizState) : Bool :=
  ((s.questions.length : Int) - 2 ≤ (s.currentQuestionIndex : Int))
    && !s.isLoadingMore && !s.isComplete

/-- The synchronous prefix of `loadMoreIfNeeded` once the guard passed:
`setIsLoadingMore(true)` and the fetch is launched. -/
def startFetch (s : QuizState) : QuizState :=
  { s with isLoadingMore := true }

/-- The success continuation of `loadMoreIfNeeded`:
`setQuestions(prev => [...prev, ...newQuestions])` then
`setIsLoadingMore(false)`. -/
def appendQuestions (newQuestions : List Question) (s : QuizState) : QuizState :=
  { s with questions := s.questions ++ newQuestions, isLoadingMore := false }

/-- The failure continuation of `loadMoreIfNeeded`: the catch block logs the
error, and `setIsLoadingMore(false)` runs after it; no other cell changes. -/
def onFetchError (s : QuizState) : QuizState :=
  { s with isLoadingMore := false }

/-- One run of the `loadMoreIfNeeded` effect body, which React re-runs whenever
`currentQuestionIndex`, `questions.length`, `isLoadingMore` or `isComplete`
changes: if the guard passes, a fetch is started. -/
def runLoadMoreEffect (s : QuizState) : QuizState :=
  if loadMoreGuard s then startFetch s else s

/-- The mount state of the `Quiz` component for a given initial batch. -/
def initState (qs : List Question) : QuizState :=
  { initialQuestions := qs
    questions := qs
    currentQuestionIndex := 0
    answers := []
    score := 0
    hasAnswered := false
    isComplete := false
    feedbackMessage := ""
    isLoadingMore := false
    showExplanation := false }

/-- Number of recorded answers: entries of `answers` that are not holes. -/
def recordedCount (s : QuizState) : Nat :=
  (s.answers.filter (fun a => a.isSome)).length

/-- Count of positions whose recorded answer equals the question's `answer`
key, pairing `answers` with `questions` positionally. -/
def countCorrect : List (Option String) → List Question → Nat
  | a :: as, q :: qs => (if a = some q.answer then 1 else 0) + countCorrect as qs
  | _, _ => 0

/-- The `totalQuestions` prop passed to `QuizScore` on the completion screen:
`answers.length`. -/
def quizScoreTotal (s : QuizState) : Nat :=
  s.answers.length

/-- The `questions` prop passed to `QuizReview` on the completion screen:
`questions.slice(0, answers.length)`. -/
def quizReviewQuestions (s : QuizState) : List Question :=
  s.questions.take s.answers.length

/-- Modelled from the spec: the `QuizReview` component (`quiz-overview`, not
among the provided sources) renders one review row per question in the list it
receives. -/
def quizReviewRows (qs : List Question) : Nat :=
  qs.length

/-- One event of the quiz session. User events (`selectAnswer`, `nextQuestion`,
`showResults`) require the in-progress screen to be rendered, i.e. the session
not complete and `questions[currentQuestionIndex]` in range (the screen
dereferences `currentQuestion`); `nextQuestion` additionally requires
`hasAnswered`, and `reset` requires the completion screen — these are the render
conditions of the corresponding buttons. Fetch events: `fetchStart` fires when
the `loadMoreIfNeeded` guard passes; the pending fetch resolves with
`fetchSucceed` or rejects with `fetchFail`. -/
inductive Step : QuizState → QuizState → Prop
  | selectAnswer (s : QuizState) (label : String)
      (hc : s.isComplete = false)
      (hlt : s.currentQuestionIndex < s.questions.length) :
      Step s (handleSelectAnswer label s)
  | nextQuestion (s : QuizState)
      (hc : s.isComplete = false)
      (hlt : s.currentQuestionIndex < s.questions.length)
      (ha : s.hasAnswered = true) :
      Step s (handleNextQuestion s)
  | showResults (s : QuizState)
      (hc : s.isComplete = false)
      (hlt : s.currentQuestionIndex < s.questions.length) :
      Step s (handleShowResults s)
  | reset (s : QuizState) (hc : s.isComplete = true) :
      Step s (handleReset s)
  | fetchStart (s : QuizState) (hg : loadMoreGuard s = true) :
      Step s (startFetch s)
  | fetchSucceed (s : QuizState) (newQuestions : List Question)
      (hl : s.isLoadingMore = true) :
      Step s (appendQuestions newQuestions s)
  | fetchFail (s : QuizState) (hl : s.isLoadingMore = true) :
      Step s (onFetchError s)

/-- States reachable from the mount state for a validated initial batch
(the generation endpoint only delivers batches of exactly 4 questions). -/
inductive ReachableFrom (init : List Question) : QuizState → Prop
  | base (h4 : init.length = 4) : ReachableFrom init (initState init)
  | step {s t : QuizState} (hr : ReachableFrom init s) (hs : Step s t) :
      ReachableFrom init t

theorem countCorrect_nil (qs : List Question) : countCorrect [] qs = 0 := rfl

theorem countCorrect_nil_right (as : List (Option String)) : countCorrect as [] = 0 := by
  cases as <;> rfl

theorem countCorrect_cons (a : Option String) (as : List (Option String))
    (q : Question) (qs : List Question) :
    countCorrect (a :: as) (q :: qs)
      = (if a = some q.answer then 1 else 0) + countCorrect as qs := rfl

theorem countCorrect_le (as : List (Option String)) (qs : List Question) :
    countCorrect as qs ≤ as.length := by
  induction as generalizing qs with
  | nil => simp [countCorrect_nil]
  | cons a as ih =>
    cases qs with
    | nil => simp [countCorrect_nil_right]
    | cons q qs =>
      have := ih qs
      rw [countCorrect_cons]
      simp only [List.length_cons]
      split <;> omega

theorem countCorrect_append_right (as : List (Option String)) (qs extra : List Question)
    (h : as.length ≤ qs.length) :
    countCorrect as (qs ++ extra) = countCorrect as qs := by
  induction as generalizing qs with
  | nil => rw [countCorrect_nil, countCorrect_nil]
  | cons a as ih =>
    cases qs with
    | nil => simp at h
    | cons q qs =>
      rw [List.cons_append, countCorrect_cons, countCorrect_cons,
        ih qs (by simpa using h)]

theorem countCorrect_snoc (l : String) (as : List (Option String))
    (qs : List Question) (q : Question) (hq : qs[as.length]? = some q) :
    countCorrect (as ++ [some l]) qs
      = countCorrect as qs + (if l = q.answer then 1 else 0) := by
  induction as generalizing qs with
  | nil =>
    cases qs with
    | nil => simp at hq
    | cons q0 qs =>
      simp only [List.length_nil, List.getElem?_cons_zero, Option.some.injEq] at hq
      rw [← hq]
      rw [List.nil_append, countCorrect_cons, countCorrect_nil, countCorrect_nil]
      by_cases h : l = q0.answer
      · simp [h]
      · have h' : ¬ (some l = some q0.answer) := by
          simp only [Option.some.injEq]; exact h
        simp [h, h']
  | cons a as ih =>
    cases qs with
    | nil => simp at hq
    | cons q0 qs =>
      have hq' : qs[as.length]? = some q := by simpa using hq
      rw [List.cons_append, countCorrect_cons, countCorrect_cons, ih qs hq']
      omega

theorem setAt_length (as : List (Option String)) (v : String) :
    setAt as as.length v = as ++ [some v] := by
  simp [setAt]

theorem loadMoreGuard_iff (s : QuizState) :
    loadMoreGuard s = true ↔
      (s.questions.length ≤ s.currentQuestionIndex + 2 ∧
        s.isLoadingMore = false ∧ s.isComplete = false) := by
  simp only [loadMoreGuard, Bool.and_eq_true, decide_eq_true_eq, Bool.not_eq_true']
  constructor
  · rintro ⟨⟨h1, h2⟩, h3⟩
    exact ⟨by omega, h2, h3⟩
  · rintro ⟨h1, h2, h3⟩
    exact ⟨⟨by omega, h2⟩, h3⟩

/-- The inductive session invariant: the score counts matching recorded
answers, the answers list has no holes, its length tracks the index and the
answered flag, and the index never runs more than one past the known list. -/
structure Inv (s : QuizState) : Prop where
  score_eq : s.score = countCorrect s.answers s.questions
  answers_len : s.answers.length
    = s.currentQuestionIndex + (if s.hasAnswered then 1 else 0)
  answered_lt : s.hasAnswered = true →
    s.currentQuestionIndex < s.questions.length
  idx_le : s.currentQuestionIndex ≤ s.questions.length
  answers_le : s.answers.length ≤ s.questions.length
  no_holes : ∀ a ∈ s.answers, a.isSome = true

theorem inv_initState (qs : List Question) : Inv (initState qs) := by
  constructor <;> simp [initState, countCorrect_nil]

theorem inv_handleSelectAnswer (label : String) (s : QuizState)
    (hlt : s.currentQuestionIndex < s.questions.length) (hi : Inv s) :
    Inv (handleSelectAnswer label s) := by
  by_cases ha : s.hasAnswered
  · simpa [handleSelectAnswer, ha] using hi
  · obtain ⟨hsc, hlen, hal, hidl, hale, hnh⟩ := hi
    rw [if_neg ha, add_zero] at hlen
    obtain ⟨q, hq⟩ : ∃ q, s.questions[s.currentQuestionIndex]? = some q :=
      ⟨_, List.getElem?_eq_getElem hlt⟩
    have hkey : currentAnswerKey s = some q.answer := by
      simp [currentAnswerKey, hq]
    have hset : setAt s.answers s.currentQuestionIndex label
        = s.answers ++ [some label] := by
      rw [← hlen]; exact setAt_length _ _
    have hq' : s.questions[s.answers.length]? = some q := by rw [hlen]; exact hq
    refine ⟨?_, ?_, ?_, ?_, ?_, ?_⟩ <;>
      simp only [handleSelectAnswer, if_neg ha, hset, hkey]
    · rw [countCorrect_snoc label s.answers s.questions q hq']
      by_cases hc : label = q.answer
      · simp [hc, hsc]
      · have hne : ¬ (some q.answer = some label) := by
          simp only [Option.some.injEq]
          intro h; exact hc h.symm
        simp [hne, hc, hsc]
    · simp [hlen]
    · intro _; exact hlt
    · exact hidl
    · simp only [List.length_append, List.length_singleton]
      omega
    · intro a hmem
      rcases List.mem_append.mp hmem with h | h
      · exact hnh a h
      · simp only [List.mem_singleton] at h
        subst h; rfl

theorem inv_handleNextQuestion (s : QuizState) (ha : s.hasAnswered = true)
    (hi : Inv s) : Inv (handleNextQuestion s) := by
  obtain ⟨hsc, hlen, hal, hidl, hale, hnh⟩ := hi
  rw [if_pos ha] at hlen
  refine ⟨?_, ?_, ?_, ?_, ?_, ?_⟩ <;> simp only [handleNextQuestion]
  · exact hsc
  · simp [hlen]
  · intro h; simp at h
  · exact hal ha
  · exact hale
  · exact hnh

theorem inv_handleShowResults (s : QuizState) (hi : Inv s) :
    Inv (handleShowResults s) := by
  obtain ⟨hsc, hlen, hal, hidl, hale, hnh⟩ := hi
  exact ⟨hsc, hlen, hal, hidl, hale, hnh⟩

theorem inv_handleReset (s : QuizState) (_hi : Inv s) : Inv (handleReset s) := by
  refine ⟨?_, ?_, ?_, ?_, ?_, ?_⟩ <;> simp [handleReset, countCorrect_nil]

theorem inv_startFetch (s : QuizState) (hi : Inv s) : Inv (startFetch s) := by
  obtain ⟨hsc, hlen, hal, hidl, hale, hnh⟩ := hi
  exact ⟨hsc, hlen, hal, hidl, hale, hnh⟩

theorem inv_appendQuestions (newQuestions : List Question) (s : QuizState)
    (hi : Inv s) : Inv (appendQuestions newQuestions s) := by
  obtain ⟨hsc, hlen, hal, hidl, hale, hnh⟩ := hi
  refine ⟨?_, ?_, ?_, ?_, ?_, ?_⟩ <;> simp only [appendQuestions]
  · rw [countCorrect_append_right s.answers s.questions newQuestions hale]
    exact hsc
  · exact hlen
  · intro h
    calc s.currentQuestionIndex < s.questions.length := hal h
      _ ≤ (s.questions ++ newQuestions).length := by simp
  · calc s.currentQuestionIndex ≤ s.questions.length := hidl
      _ ≤ (s.questions ++ newQuestions).length := by simp
  · calc s.answers.length ≤ s.questions.length := hale
      _ ≤ (s.questions ++ newQuestions).length := by simp
  · exact hnh

theorem inv_onFetchError (s : QuizState) (hi : Inv s) : Inv (onFetchError s) := by
  obtain ⟨hsc, hlen, hal, hidl, hale, hnh⟩ := hi
  exact ⟨hsc, hlen, hal, hidl, hale, hnh⟩

theorem inv_step {s t : QuizState} (hs : Step s t) (hi : Inv s) : Inv t := by
  cases hs with
  | selectAnswer label hc hlt => exact inv_handleSelectAnswer label s hlt hi
  | nextQuestion hc hlt ha => exact inv_handleNextQuestion s ha hi
  | showResults hc hlt => exact inv_handleShowResults s hi
  | reset hc => exact inv_handleReset s hi
  | fetchStart hg => exact inv_startFetch s hi
  | fetchSucceed newQuestions hl => exact inv_appendQuestions newQuestions s hi
  | fetchFail hl => exact inv_onFetchError s hi

theorem inv_reachable {init : List Question} {s : QuizState}
    (hr : ReachableFrom init s) : Inv s := by
  induction hr with
  | base h4 => exact inv_initState _
  | step hr hs ih => exact inv_step hs ih

theorem step_initialQuestions {s t : QuizState} (hs : Step s t) :
    t.initialQuestions = s.initialQuestions := by
  cases hs with
  | selectAnswer label hc hlt =>
      by_cases ha : s.hasAnswered <;> simp [handleSelectAnswer, ha]
  | nextQuestion hc hlt ha => rfl
  | showResults hc hlt => rfl
  | reset hc => rfl
  | fetchStart hg => rfl
  | fetchSucceed newQuestions hl => rfl
  | fetchFail hl => rfl

theorem reachableFrom_initialQuestions {init : List Question} {s : QuizState}
    (hr : ReachableFrom init s) : s.initialQuestions = init := by
  induction hr with
  | base h4 => rfl
  | step hr hs ih => rw [step_initialQuestions hs, ih]

theorem recordedCount_eq (s : QuizState) (h : ∀ a ∈ s.answers, a.isSome = true) :
    recordedCount s = s.answers.length := by
  unfold recordedCount
  rw [List.filter_eq_self.mpr h]

theorem handleSelectAnswer_noop (l : String) (t : QuizState)
    (h : t.hasAnswered = true) : handleSelectAnswer l t = t := by
  simp [handleSelectAnswer, h]

theorem handleSelectAnswer_hasAnswered (l : String) (t : QuizState) :
    (handleSelectAnswer l t).hasAnswered = true := by
  by_cases h : t.hasAnswered <;> simp [handleSelectAnswer, h]

/-- A concrete question and batch for witnesses. -/
def demoQuestion : Question :=
  { question := "Q", options := ["w", "x", "y", "z"], answer := "A",
    explanation := "E" }

def demoBatch : List Question :=
  [demoQuestion, demoQuestion, demoQuestion, demoQuestion]

/-- C1: at every reachable session state the score equals the count of
positions whose recorded answer matches the question's answer key, and in
particular never exceeds the number of recorded answers; reachability is
closed under `selectAnswer`, `advance`, `requestResults` and the
background-fetch append, so the predicate is preserved by each of them. -/
theorem claim1_score_invariant (init : List Question) (s : QuizState)
    (hr : ReachableFrom init s) :
    s.score = countCorrect s.answers s.questions ∧ s.score ≤ recordedCount s := by
  have hi := inv_reachable hr
  refine ⟨hi.score_eq, ?_⟩
  rw [recordedCount_eq s hi.no_holes, hi.score_eq]
  exact countCorrect_le s.answers s.questions

theorem claim1_score_invariant_witness :
    (handleSelectAnswer "A" (initState demoBatch)).score
        = countCorrect (handleSelectAnswer "A" (initState demoBatch)).answers
            (handleSelectAnswer "A" (initState demoBatch)).questions
      ∧ (handleSelectAnswer "A" (initState demoBatch)).score
        ≤ recordedCount (handleSelectAnswer "A" (initState demoBatch)) :=
  claim1_score_invariant demoBatch _
    (ReachableFrom.step (ReachableFrom.base rfl)
      (Step.selectAnswer (initState demoBatch) "A" rfl (by decide)))

/-- C2: `selectAnswer` is idempotent after the first answer — a second call on
the same question, with the same or a different label, leaves the state
(recorded answer, score, feedback message and all) exactly as after the first
call; and whenever the current question is already answered, `selectAnswer`
is a no-op. -/
theorem claim2_selectAnswer_idempotent (s : QuizState) (l1 l2 : String) :
    handleSelectAnswer l2 (handleSelectAnswer l1 s) = handleSelectAnswer l1 s
      ∧ (s.hasAnswered = true → handleSelectAnswer l1 s = s) :=
  ⟨handleSelectAnswer_noop l2 _ (handleSelectAnswer_hasAnswered l1 s),
   fun ha => handleSelectAnswer_noop l1 s ha⟩

theorem claim2_selectAnswer_idempotent_witness :
    handleSelectAnswer "B"
        (handleSelectAnswer "A" (handleSelectAnswer "A" (initState demoBatch)))
      = handleSelectAnswer "A" (handleSelectAnswer "A" (initState demoBatch))
    ∧ handleSelectAnswer "A" (handleSelectAnswer "A" (initState demoBatch))
      = handleSelectAnswer "A" (initState demoBatch) :=
  ⟨(claim2_selectAnswer_idempotent (handleSelectAnswer "A" (initState demoBatch)) "A" "B").1,
   (claim2_selectAnswer_idempotent (handleSelectAnswer "A" (initState demoBatch)) "A" "B").2
      (by decide)⟩

/-- C8: `reset` restores the index to 0, the score to 0, the answers to empty,
the completion flag to false, and the question list to exactly the initial
batch the session was created with, discarding appended batches. -/
theorem claim8_reset (init : List Question) (s : QuizState)
    (hr : ReachableFrom init s) :
    (handleReset s).currentQuestionIndex = 0
      ∧ (handleReset s).score = 0
      ∧ (handleReset s).answers = []
      ∧ (handleReset s).isComplete = false
      ∧ (handleReset s).questions = init := by
  refine ⟨rfl, rfl, rfl, rfl, ?_⟩
  show s.initialQuestions = init
  exact reachableFrom_initialQuestions hr

theorem claim8_reset_witness :
    (handleReset (initState demoBatch)).currentQuestionIndex = 0
      ∧ (handleReset (initState demoBatch)).score = 0
      ∧ (handleReset (initState demoBatch)).answers = []
      ∧ (handleReset (initState demoBatch)).isComplete = false
      ∧ (handleReset (initState demoBatch)).questions = demoBatch :=
  claim8_reset demoBatch (initState demoBatch) (ReachableFrom.base rfl)

/-- C9: a successful background fetch appends the new batch at the end — the
question list becomes the previous list followed by the fetched questions, so
every previously known question keeps its index — and leaves answers, score,
current index and completion flag unchanged. -/
theorem claim9_append_frame (newQuestions : List Question) (s : QuizState) :
    (appendQuestions newQuestions s).questions = s.questions ++ newQuestions
      ∧ (∀ i, i < s.questions.length →
          (appendQuestions newQuestions s).questions[i]? = s.questions[i]?)
      ∧ (appendQuestions newQuestions s).answers = s.answers
      ∧ (appendQuestions newQuestions s).score = s.score
      ∧ (appendQuestions newQuestions s).currentQuestionIndex
          = s.currentQuestionIndex
      ∧ (appendQuestions newQuestions s).isComplete = s.isComplete := by
  refine ⟨rfl, ?_, rfl, rfl, rfl, rfl⟩
  intro i hi
  show (s.questions ++ newQuestions)[i]? = s.questions[i]?
  exact List.getElem?_append_left hi

theorem claim9_append_frame_witness :
    (appendQuestions demoBatch (initState demoBatch)).questions
        = (initState demoBatch).questions ++ demoBatch
      ∧ (appendQuestions demoBatch (initState demoBatch)).questions[0]?
        = (initState demoBatch).questions[0]?
      ∧ (appendQuestions demoBatch (initState demoBatch)).answers
        = (initState demoBatch).answers
      ∧ (appendQuestions demoBatch (initState demoBatch)).score
        = (initState demoBatch).score
      ∧ (appendQuestions demoBatch (initState demoBatch)).currentQuestionIndex
        = (initState demoBatch).currentQuestionIndex
      ∧ (appendQuestions demoBatch (initState demoBatch)).isComplete
        = (initState demoBatch).isComplete :=
  ⟨(claim9_append_frame demoBatch (initState demoBatch)).1,
   (claim9_append_frame demoBatch (initState demoBatch)).2.1 0 (by decide),
   (claim9_append_frame demoBatch (initState demoBatch)).2.2.1,
   (claim9_append_frame demoBatch (initState demoBatch)).2.2.2.1,
   (claim9_append_frame demoBatch (initState demoBatch)).2.2.2.2.1,
   (claim9_append_frame demoBatch (initState demoBatch)).2.2.2.2.2⟩

/-- C10: `advance` increments the current index by one and clears the
per-question UI flags (answered flag, feedback message, explanation panel);
the question list, recorded answers, score and completion flag are
unchanged. -/
theorem claim10_advance_frame (s : QuizState) :
    (handleNextQuestion s).questions = s.questions
      ∧ (handleNextQuestion s).answers = s.answers
      ∧ (handleNextQuestion s).score = s.score
      ∧ (handleNextQuestion s).isComplete = s.isComplete
      ∧ (handleNextQuestion s).currentQuestionIndex = s.currentQuestionIndex + 1
      ∧ (handleNextQuestion s).hasAnswered = false
      ∧ (handleNextQuestion s).feedbackMessage = ""
      ∧ (handleNextQuestion s).showExplanation = false :=
  ⟨rfl, rfl, rfl, rfl, rfl, rfl, rfl, rfl⟩

/-- The session state after answering the first four questions and advancing
four times, starting from the demo batch: the index has walked past the end of
the known question list. -/
def pastEndState : QuizState :=
  handleNextQuestion (handleSelectAnswer "A"
    (handleNextQuestion (handleSelectAnswer "A"
      (handleNextQuestion (handleSelectAnswer "A"
        (handleNextQuestion (handleSelectAnswer "A" (initState demoBatch))))))))

/-- C4 fails on the code: `handleNextQuestion` increments the index
unconditionally, so answering the last known question and pressing Next (a
reachable interaction when the background fetch has not delivered a new batch)
leaves a non-complete state whose index equals the question list length and is
therefore not a valid position. -/
theorem claim4_counterexample :
    ReachableFrom demoBatch pastEndState
      ∧ pastEndState.isComplete = false
      ∧ ¬ (pastEndState.currentQuestionIndex < pastEndState.questions.length) := by
  refine ⟨?_, by decide, by decide⟩
  have h0 : ReachableFrom demoBatch (initState demoBatch) := ReachableFrom.base rfl
  have h1 := h0.step (Step.selectAnswer (initState demoBatch) "A" rfl (by decide))
  have h2 := h1.step (Step.nextQuestion _ (by decide) (by decide) (by decide))
  have h3 := h2.step (Step.selectAnswer _ "A" (by decide) (by decide))
  have h4 := h3.step (Step.nextQuestion _ (by decide) (by decide) (by decide))
  have h5 := h4.step (Step.selectAnswer _ "A" (by decide) (by decide))
  have h6 := h5.step (Step.nextQuestion _ (by decide) (by decide) (by decide))
  have h7 := h6.step (Step.selectAnswer _ "A" (by decide) (by decide))
  exact h7.step (Step.nextQuestion _ (by decide) (by decide) (by decide))

/-- C4 amended: in every reachable session state the current index lies in
[0, len(questions)] — every operation except `advance` keeps it strictly below
the length, and `advance` taken at the last known question moves it to exactly
the length (one past the last valid position), never further. -/
theorem claim4_amended_index_bound (init : List Question) (s : QuizState)
    (hr : ReachableFrom init s) :
    s.currentQuestionIndex ≤ s.questions.length :=
  (inv_reachable hr).idx_le

theorem claim4_amended_index_bound_witness :
    (initState demoBatch).currentQuestionIndex
      ≤ (initState demoBatch).questions.length :=
  claim4_amended_index_bound demoBatch (initState demoBatch) (ReachableFrom.base rfl)

/-- C5: `requestResults` immediately marks the session complete, whatever is
still unanswered; on the results screen the review receives exactly one
question per recorded answer (not the full question list) and the displayed
score total equals the number of recorded answers. -/
theorem claim5_results (init : List Question) (s : QuizState)
    (hr : ReachableFrom init s) :
    (handleShowResults s).isComplete = true
      ∧ quizReviewRows (quizReviewQuestions (handleShowResults s))
          = recordedCount (handleShowResults s)
      ∧ quizScoreTotal (handleShowResults s)
          = recordedCount (handleShowResults s) := by
  have hi := inv_reachable hr
  have hrec : recordedCount (handleShowResults s) = s.answers.length := by
    show recordedCount { s with isComplete := true } = s.answers.length
    exact recordedCount_eq _ hi.no_holes
  refine ⟨rfl, ?_, ?_⟩
  · show (s.questions.take s.answers.length).length
      = recordedCount (handleShowResults s)
    rw [hrec, List.length_take]
    exact Nat.min_eq_left hi.answers_le
  · show s.answers.length = recordedCount (handleShowResults s)
    rw [hrec]

theorem claim5_results_witness :
    (handleShowResults (handleSelectAnswer "A" (initState demoBatch))).isComplete = true
      ∧ quizReviewRows (quizReviewQuestions
          (handleShowResults (handleSelectAnswer "A" (initState demoBatch))))
        = recordedCount (handleShowResults (handleSelectAnswer "A" (initState demoBatch)))
      ∧ quizScoreTotal (handleShowResults (handleSelectAnswer "A" (initState demoBatch)))
        = recordedCount (handleShowResults (handleSelectAnswer "A" (initState demoBatch))) :=
  claim5_results demoBatch _
    (ReachableFrom.step (ReachableFrom.base rfl)
      (Step.selectAnswer (initState demoBatch) "A" rfl (by decide)))

/-- C6: the background fetch triggers exactly when the current index is within
2 of the end of the known list, no fetch is in flight, and the session is not
complete; starting a fetch raises `isLoadingMore`, and while it is raised the
guard evaluates to false, so every further trigger is suppressed and the fetch
is never in flight concurrently with itself. -/
theorem claim6_fetch_trigger (s : QuizState) :
    (loadMoreGuard s = true ↔
        (s.questions.length ≤ s.currentQuestionIndex + 2
          ∧ s.isLoadingMore = false ∧ s.isComplete = false))
      ∧ (startFetch s).isLoadingMore = true
      ∧ (s.isLoadingMore = true → loadMoreGuard s = false) := by
  refine ⟨loadMoreGuard_iff s, rfl, ?_⟩
  intro hl
  cases hg : loadMoreGuard s with
  | false => rfl
  | true =>
    have h2 := ((loadMoreGuard_iff s).mp hg).2.1
    rw [hl] at h2
    exact Bool.noConfusion h2

theorem claim6_fetch_trigger_witness :
    loadMoreGuard (startFetch (initState demoBatch)) = false :=
  (claim6_fetch_trigger (startFetch (initState demoBatch))).2.2 rfl

/-- The session state with a background fetch in flight at index 2 of the demo
batch (the fetch triggered because the index came within 2 of the end). -/
def inFlightState : QuizState :=
  startFetch (handleNextQuestion (handleSelectAnswer "A"
    (handleNextQuestion (handleSelectAnswer "A" (initState demoBatch)))))

/-- C7 fails on the code: after a fetch failure clears `isLoadingMore`, the
load-more effect re-runs (the flag is in its dependency list) and its guard —
unchanged index, unchanged list length, still not complete — passes again, so
a new fetch is launched immediately: a retry is scheduled automatically. -/
theorem claim7_counterexample :
    ReachableFrom demoBatch inFlightState
      ∧ inFlightState.isLoadingMore = true
      ∧ (runLoadMoreEffect (onFetchError inFlightState)).isLoadingMore = true := by
  refine ⟨?_, by decide, by decide⟩
  have h0 : ReachableFrom demoBatch (initState demoBatch) := ReachableFrom.base rfl
  have h1 := h0.step (Step.selectAnswer (initState demoBatch) "A" rfl (by decide))
  have h2 := h1.step (Step.nextQuestion _ (by decide) (by decide) (by decide))
  have h3 := h2.step (Step.selectAnswer _ "A" (by decide) (by decide))
  have h4 := h3.step (Step.nextQuestion _ (by decide) (by decide) (by decide))
  exact h4.step (Step.fetchStart _ (by decide))

/-- C7 amended: a failed background fetch is caught locally and leaves the
session state — questions, answers, score, current index, completion flag —
unchanged, only lowering `isFetchingMore`, and play on the loaded questions
continues; but no-retry does not hold: whenever the session is not complete
and the index is still within 2 of the end, the re-run of the load-more
effect immediately starts another fetch. -/
theorem claim7_amended_fetch_error (s : QuizState) :
    ((onFetchError s).questions = s.questions
      ∧ (onFetchError s).answers = s.answers
      ∧ (onFetchError s).score = s.score
      ∧ (onFetchError s).currentQuestionIndex = s.currentQuestionIndex
      ∧ (onFetchError s).isComplete = s.isComplete
      ∧ (onFetchError s).isLoadingMore = false)
    ∧ (s.isComplete = false → s.questions.length ≤ s.currentQuestionIndex + 2 →
        (runLoadMoreEffect (onFetchError s)).isLoadingMore = true) := by
  refine ⟨⟨rfl, rfl, rfl, rfl, rfl, rfl⟩, ?_⟩
  intro hc hlen
  have hg : loadMoreGuard (onFetchError s) = true :=
    (loadMoreGuard_iff (onFetchError s)).mpr ⟨hlen, rfl, hc⟩
  rw [runLoadMoreEffect, if_pos hg]
  rfl

theorem claim7_amended_fetch_error_witness :
    ((onFetchError inFlightState).questions = inFlightState.questions
      ∧ (onFetchError inFlightState).answers = inFlightState.answers
      ∧ (onFetchError inFlightState).score = inFlightState.score
      ∧ (onFetchError inFlightState).currentQuestionIndex
          = inFlightState.currentQuestionIndex
      ∧ (onFetchError inFlightState).isComplete = inFlightState.isComplete
      ∧ (onFetchError inFlightState).isLoadingMore = false)
    ∧ (runLoadMoreEffect (onFetchError inFlightState)).isLoadingMore = true :=
  ⟨(claim7_amended_fetch_error inFlightState).1,
   (claim7_amended_fetch_error inFlightState).2 (by decide) (by decide)⟩

theorem parseAnswerLabel_mem (j : Json) (a : String)
    (h : parseAnswerLabel j = some a) :
    a = "A" ∨ a = "B" ∨ a = "C" ∨ a = "D" := by
  cases j with
  | str s =>
    simp only [parseAnswerLabel] at h
    split at h
    · next hc =>
        cases h
        exact hc
    · cases h
  | null => cases h
  | bool b => cases h
  | num n => cases h
  | arr items => cases h
  | obj fields => cases h

theorem parseOptions_length (j : Json) (opts : List String)
    (h : parseOptions j = some opts) : opts.length = 4 := by
  cases j with
  | arr items =>
    simp only [parseOptions, Option.bind_eq_bind, Option.bind_eq_some] at h
    obtain ⟨ss, hss, hf⟩ := h
    split at hf
    · next hlen =>
        cases hf
        exact hlen
    · cases hf
  | null => cases h
  | bool b => cases h
  | num n => cases h
  | str s => cases h
  | obj fields => cases h

theorem questionSchemaParse_wf (j : Json) (q : Question)
    (h : questionSchemaParse j = some q) :
    q.options.length = 4
      ∧ (q.answer = "A" ∨ q.answer = "B" ∨ q.answer = "C" ∨ q.answer = "D") := by
  cases j with
  | obj fields =>
    simp only [questionSchemaParse, Option.bind_eq_bind, Option.bind_eq_some,
      Option.some.injEq] at h
    obtain ⟨s1, ⟨j1, hj1, hs1⟩, opts, ⟨j2, hj2, hopts⟩, ans, ⟨j3, hj3, hans⟩,
      expl, ⟨j4, hj4, hexpl⟩, hq⟩ := h
    subst hq
    exact ⟨parseOptions_length j2 opts hopts, parseAnswerLabel_mem j3 ans hans⟩
  | null => cases h
  | bool b => cases h
  | num n => cases h
  | str s => cases h
  | arr items => cases h

theorem parseQuestionList_wf (items : List Json) (qs : List Question)
    (h : parseQuestionList items = some qs) :
    ∀ q ∈ qs, q.options.length = 4
      ∧ (q.answer = "A" ∨ q.answer = "B" ∨ q.answer = "C" ∨ q.answer = "D") := by
  induction items generalizing qs with
  | nil =>
    cases h
    intro q hq
    cases hq
  | cons j rest ih =>
    simp only [parseQuestionList, Option.bind_eq_bind, Option.bind_eq_some,
      Option.some.injEq] at h
    obtain ⟨q0, hq0, qs', hqs', hcons⟩ := h
    subst hcons
    intro q hq
    rcases List.mem_cons.mp hq with rfl | hmem
    · exact questionSchemaParse_wf j q hq0
    · exact ih qs' hqs' q hmem

theorem questionsSchemaParse_wf (j : Json) (qs : List Question)
    (h : questionsSchemaParse j = some qs) :
    qs.length = 4
      ∧ ∀ q ∈ qs, q.options.length = 4
        ∧ (q.answer = "A" ∨ q.answer = "B" ∨ q.answer = "C" ∨ q.answer = "D") := by
  cases j with
  | arr items =>
    simp only [questionsSchemaParse, Option.bind_eq_bind, Option.bind_eq_some] at h
    obtain ⟨qs', hqs', hf⟩ := h
    split at hf
    · next hlen =>
        cases hf
        exact ⟨hlen, parseQuestionList_wf items _ hqs'⟩
    · cases hf
  | null => cases h
  | bool b => cases h
  | num n => cases h
  | str s => cases h
  | obj fields => cases h

/-- C3: the endpoint's finished output is delivered only when it validates as
exactly 4 well-formed questions — if the assembled object does not parse as an
array of exactly 4 Questions, each with exactly 4 string options and an answer
among A, B, C, D, the `onFinish` check fails the call with a validation error;
whatever the call delivers as `ok` is a fully well-formed batch, never a
partial or malformed one. -/
theorem claim3_validation (j : Json) :
    (questionsSchemaParse j = none →
        onFinishValidate j = Except.error "validation error")
      ∧ (∀ qs, onFinishValidate j = Except.ok qs →
          qs.length = 4
            ∧ ∀ q ∈ qs, q.options.length = 4
              ∧ (q.answer = "A" ∨ q.answer = "B" ∨ q.answer = "C" ∨ q.answer = "D")) := by
  constructor
  · intro h
    simp only [onFinishValidate, h]
  · intro qs h
    cases hp : questionsSchemaParse j with
    | none =>
      simp only [onFinishValidate, hp] at h
      cases h
    | some qs' =>
      simp only [onFinishValidate, hp, Except.ok.injEq] at h
      subst h
      exact questionsSchemaParse_wf j qs' hp

/-- The JSON rendering of `demoQuestion`, well-formed. -/
def goodQuestionJson : Json :=
  .obj [("question", .str "Q"),
        ("options", .arr [.str "w", .str "x", .str "y", .str "z"]),
        ("answer", .str "A"),
        ("explanation", .str "E")]

/-- A question object with only 3 options (the spec's validation scenario). -/
def badQuestionJson : Json :=
  .obj [("question", .str "Q"),
        ("options", .arr [.str "w", .str "x", .str "y"]),
        ("answer", .str "A"),
        ("explanation", .str "E")]

def goodBatchJson : Json :=
  .arr [goodQuestionJson, goodQuestionJson, goodQuestionJson, goodQuestionJson]

/-- A batch in which one question has only 3 options: rejected as a whole. -/
def badBatchJson : Json :=
  .arr [badQuestionJson, goodQuestionJson, goodQuestionJson, goodQuestionJson]

theorem claim3_validation_witness :
    onFinishValidate badBatchJson = Except.error "validation error"
      ∧ (demoBatch.length = 4
          ∧ ∀ q ∈ demoBatch, q.options.length = 4
            ∧ (q.answer = "A" ∨ q.answer = "B" ∨ q.answer = "C" ∨ q.answer = "D")) :=
  ⟨(claim3_validation badBatchJson).1 rfl,
   (claim3_validation goodBatchJson).2 demoBatch rfl⟩

end PdfToQuiz
